import Mathlib

/-!
Verification of the source-graph-stream-client repository.

The client is embedded shallowly: JavaScript strings become `List Char`
(written `Str`), the incremental SSE framing loop of
`SourceGraphClient.search` (src/unnamed/part_003, lines 196-247) becomes a
state machine driven by `feedChunk`, the per-frame classification and
routing (lines 211-246) becomes `processFrame`, and the
`SseStreamTransform`-based variants of `search` and `raw`
(src/unnamed/part_002) become `searchTGo` and `rawT` over classified
messages.  The host `JSON.parse` is an external collaborator, so the
pipeline is parameterised over a parse function `Str → Option Json`;
`parseDemo` is a concrete instance used by the example theorems, agreeing
with the host parser on each literal it is defined on.

Client construction, header handling and query-parameter construction
(src/source-graph-client.ts lines 116-126 and 155-180, src/unnamed/part_002
lines 125-135 and 214-239) are embedded over plain `String`.
-/

/-- JavaScript strings, modelled as their character sequences. -/
abbrev Str := List Char

/-- Characters of a Lean string literal, used to write concrete `Str` values. -/
def strL (s : String) : Str := s.data

/-- The whitespace characters relevant to the streams this client handles;
the host `trim` removes a larger set, but event streams only contain these. -/
def isWsChar (c : Char) : Bool := c = ' ' || c = '\n' || c = '\t' || c = '\r'

/-- The host `String.prototype.trim`: strip whitespace from both ends. -/
def trimStr (s : Str) : Str :=
  ((s.dropWhile isWsChar).reverse.dropWhile isWsChar).reverse

/-- The host `String.prototype.split("\n")`: always returns at least one piece. -/
def splitNl : Str → List Str
  | [] => [[]]
  | c :: rest =>
    if c = '\n' then [] :: splitNl rest
    else
      match splitNl rest with
      | [] => [[c]]
      | l :: ls => (c :: l) :: ls

/-- The host `String.prototype.startsWith`, first argument the pattern. -/
def startsWithL : Str → Str → Bool
  | [], _ => true
  | _ :: _, [] => false
  | p :: ps, c :: cs => p = c && startsWithL ps cs

/-- The host `String.prototype.replace(pat, "")`: remove the first
occurrence of `pat`, or return the string unchanged when `pat` is absent. -/
def replaceFirst (pat : Str) : Str → Str
  | [] => []
  | c :: rest =>
    if startsWithL pat (c :: rest) then List.drop pat.length (c :: rest)
    else c :: replaceFirst pat rest

/-- The host `raw.indexOf("\n\n")` of part_003's loop: index of the first
occurrence of the SSE frame separator, `none` when absent. -/
def findSep : Str → Option Nat
  | [] => none
  | [_] => none
  | c₁ :: c₂ :: rest =>
    if c₁ = '\n' ∧ c₂ = '\n' then some 0
    else (findSep (c₂ :: rest)).map (· + 1)

/-- Fuelled form of the `while (raw.includes(SEP))` loop of part_003
(lines 202-209): repeatedly slice off `raw.slice(0, index).trim()` and keep
`raw.slice(index)`.  One unit of fuel per extracted frame; each frame
consumes at least two characters, so `s.length` fuel always suffices. -/
def extractF : Nat → Str → List Str × Str
  | 0, s => ([], s)
  | fuel + 1, s =>
    match findSep s with
    | none => ([], s)
    | some j =>
      let part := trimStr (s.take (j + 2))
      let rest := s.drop (j + 2)
      let e := extractF fuel rest
      (part :: e.1, e.2)

/-- All complete (trimmed) frames of a buffer, in order, with the
unterminated residue. -/
def extract (s : Str) : List Str × Str := extractF s.length s

/-- JSON values, the results of the host `JSON.parse`.  Payload parsing is an
external collaborator of the pipeline, so every pipeline definition takes a
parse function `Str → Option Json` as a parameter (`none` models a thrown
`SyntaxError`). -/
inductive Json where
  | null
  | bool (b : Bool)
  | num (n : Int)
  | str (s : Str)
  | arr (elems : List Json)
  | obj (fields : List (Str × Json))

/-- A concrete instance of the parse parameter, fixed on the literals the
example theorems use; on each of them it returns exactly what the host
`JSON.parse` returns (with a thrown `SyntaxError` rendered as `none`). -/
def parseDemo (s : Str) : Option Json :=
  if s = strL "null" then some Json.null
  else if s = strL "[]" then some (Json.arr [])
  else if s = strL "1" then some (Json.num 1)
  else if s = strL "[1,2]" then some (Json.arr [Json.num 1, Json.num 2])
  else if s = strL "[3]" then some (Json.arr [Json.num 3])
  else none

/-- How a search call ends ahead of stream exhaustion: the `return` on the
terminal event (part_003 line 226), an error thrown by `handleError` under
`throwOnError` (lines 250-256), or a host `TypeError` (see `processFrame`). -/
inductive Term where
  | doneT
  | errThrown (msg : String)
  | crash
deriving DecidableEq

/-- Effect of one iteration of the frame loop body on the generator. -/
inductive FrameResult where
  | skip
  | yields (rs : List Json)
  | stop (t : Term)

/-- `handleError` of part_003 (lines 250-256): throw when `throwOnError` is
set, otherwise report to the console and continue with the next frame. -/
def handleErrorR (toe : Bool) (msg : String) : FrameResult :=
  if toe then .stop (.errThrown msg) else .skip

/-- The `for (const result of results) yield result` loop of part_003
(lines 243-245).  `JSON.parse` is unchecked there, so a non-array value
reaches a `for..of`: arrays yield their elements in order, strings are
iterable and yield their characters one by one, and any other value raises
a host `TypeError` (not iterable). -/
def jsIterate : Json → FrameResult
  | .arr xs => .yields xs
  | .str cs => .yields (cs.map fun c => Json.str [c])
  | _ => .stop .crash

/-- The frame-loop body of part_003's `search` (lines 207-246), applied to
one trimmed part.  An empty part is skipped (line 207).  The part is split
on newlines; with a single line, `dt` is `undefined`, so when the event-line
check passes, `dt.startsWith("data:")` raises a host `TypeError` (modelled
as `.stop .crash`).  The terminal name is checked before the matches name,
both after stripping the `event:` tag and trimming. -/
def processFrame (toe : Bool) (parse : Str → Option Json) (part : Str) : FrameResult :=
  if part = [] then .skip
  else
    match splitNl part with
    | [] => .skip
    | [ev] =>
      if startsWithL (strL "event:") ev then .stop .crash
      else handleErrorR toe "Unable to process chunk, missing event line"
    | ev :: dt :: _ =>
      if !startsWithL (strL "event:") ev then
        handleErrorR toe "Unable to process chunk, missing event line"
      else if !startsWithL (strL "data:") dt then
        handleErrorR toe "unable to process chunk, missing data line"
      else
        let event := trimStr (replaceFirst (strL "event:") ev)
        if event = strL "done" then .stop .doneT
        else if event ≠ strL "matches" then .skip
        else
          let data := trimStr (replaceFirst (strL "data:") dt)
          match parse data with
          | none => handleErrorR toe "unable to parse chunk data as JSON"
          | some v => jsIterate v

/-- Routing a list of already-extracted parts: accumulate yielded results
until a frame stops the generator; frames after the stop are not processed. -/
def routeList (toe : Bool) (parse : Str → Option Json) (acc : List Json) :
    List Str → List Json × Option Term
  | [] => (acc, none)
  | f :: fs =>
    match processFrame toe parse f with
    | .skip => routeList toe parse acc fs
    | .yields rs => routeList toe parse (acc ++ rs) fs
    | .stop t => (acc, some t)

/-- The results contributed by each frame, concatenated in frame order, up
to (and excluding) the first frame that stops the generator. -/
def flatYields (toe : Bool) (parse : Str → Option Json) : List Str → List Json
  | [] => []
  | f :: fs =>
    match processFrame toe parse f with
    | .skip => flatYields toe parse fs
    | .yields rs => rs ++ flatYields toe parse fs
    | .stop _ => []

/-- The first stopping condition among a list of frames, if any. -/
def firstTerm (toe : Bool) (parse : Str → Option Json) : List Str → Option Term
  | [] => none
  | f :: fs =>
    match processFrame toe parse f with
    | .stop t => some t
    | _ => firstTerm toe parse fs

/-- State of one `search` call of part_003: the undelivered buffer tail
(`raw`), the results yielded so far, and whether the generator has finished
ahead of stream exhaustion.  On termination the generator's locals go out of
scope, so the buffer is cleared. -/
structure MachineState where
  buf : Str
  out : List Json
  term : Option Term

/-- One iteration of part_003's `for await (const chunk of res.body)` body
(lines 199-247): append the decoded chunk to `raw`, then run the inner
`while (raw.includes(SEP))` loop.  Once the generator has returned or
thrown, later chunks are never consumed. -/
def feedChunk (toe : Bool) (parse : Str → Option Json) (st : MachineState) (c : Str) :
    MachineState :=
  if st.term.isSome then st
  else
    let e := extract (st.buf ++ c)
    let rt := routeList toe parse st.out e.1
    match rt.2 with
    | some t => ⟨[], rt.1, some t⟩
    | none => ⟨e.2, rt.1, none⟩

/-- Feeding a whole sequence of transport chunks. -/
def feedChunks (toe : Bool) (parse : Str → Option Json) (st : MachineState)
    (cs : List Str) : MachineState :=
  cs.foldl (feedChunk toe parse) st

/-- A full `search` call of part_003 over a chunked response body, starting
from an empty buffer. -/
def searchRun (toe : Bool) (parse : Str → Option Json) (cs : List Str) : MachineState :=
  feedChunks toe parse ⟨[], [], none⟩ cs

/-- A classified SSE message as produced by the `sse-stream-transform`
package, consumed by part_002's `search` and `raw` (lines 163, 193). -/
structure SSEMsg where
  event : Str
  data : Str

/-- Modelled from the spec: the `SseStreamTransform` frame classifier is in
the external `sse-stream-transform` package, not in this repository.  Per
spec section 4.2 a frame is split on the first line boundary into two lines,
the `event:` and `data:` tags are validated as exact prefixes and stripped,
and name and payload are trimmed; extra lines are tolerated and ignored.
Per sections 4.1 and 4.5, frames that are blank after trimming and frames
that fail classification produce no message. -/
def classifyMsg (part : Str) : Option SSEMsg :=
  if part = [] then none
  else
    match splitNl part with
    | ev :: dt :: _ =>
      if startsWithL (strL "event:") ev && startsWithL (strL "data:") dt then
        some ⟨trimStr (replaceFirst (strL "event:") ev),
              trimStr (replaceFirst (strL "data:") dt)⟩
      else none
    | _ => none

/-- Modelled from the spec: the message sequence `SseStreamTransform`
produces from a byte stream — the complete frames, in arrival order, each
classified, with blank and malformed frames dropped (spec sections 4.1-4.2). -/
def transformMsgs (s : Str) : List SSEMsg :=
  (extract s).1.filterMap classifyMsg

/-- A payload after part_002's `raw` processed it: either a parsed JSON
value or the original raw string. -/
inductive RawPayload where
  | jsonVal (v : Json)
  | strVal (s : Str)

/-- An event yielded by part_002's `raw`. -/
structure RawMsg where
  event : Str
  data : RawPayload

/-- The data rewrite of part_002's `raw` (lines 194-196):
`if (msg.data) msg.data = safeParse(msg.data) ?? msg.data`.  An empty data
string is falsy and left alone.  `safeParse` returns the parsed value, or
`null` when `JSON.parse` throws; the nullish coalescing then falls back to
the raw string both when parsing failed and when the payload parsed to the
JSON value `null`. -/
def rawData (parse : Str → Option Json) (d : Str) : RawPayload :=
  if d = [] then .strVal d
  else
    match parse d with
    | some Json.null => .strVal d
    | some v => .jsonVal v
    | none => .strVal d

/-- The loop of part_002's `raw` (lines 193-198): every message from the
transform is yielded, in order, with its data rewritten by `rawData`.  The
loop has no early exit and never consults `throwOnError`. -/
def rawT (parse : Str → Option Json) : List SSEMsg → List RawMsg
  | [] => []
  | m :: ms => ⟨m.event, rawData parse m.data⟩ :: rawT parse ms

/-- A full `raw` call of part_002 over a response body. -/
def rawRun (parse : Str → Option Json) (s : Str) : List RawMsg :=
  rawT parse (transformMsgs s)

/-- The loop of part_002's `search` (lines 163-179): messages whose event is
not the matches name are skipped; otherwise `safeParse(msg.data)` must be an
array (a failed parse returns `null`, which is not an array), and on a
non-array the call throws when `throwOnError` is set and skips the message
otherwise.  Array elements are yielded in order. -/
def searchTGo (toe : Bool) (parse : Str → Option Json) (acc : List Json) :
    List SSEMsg → List Json × Option String
  | [] => (acc, none)
  | m :: ms =>
    if m.event ≠ strL "matches" then searchTGo toe parse acc ms
    else
      match parse m.data with
      | some (.arr xs) => searchTGo toe parse (acc ++ xs) ms
      | _ =>
        if toe then (acc, some "Error parsing Sourcegraph search result")
        else searchTGo toe parse acc ms

/-- A full part_002 `search` call over a response body. -/
def searchTRun (toe : Bool) (parse : Str → Option Json) (s : Str) :
    List Json × Option String :=
  searchTGo toe parse [] (transformMsgs s)

/-- Lower-case a single ASCII character, for header-name comparison. -/
def normChar (c : Char) : Char :=
  if 'A' ≤ c ∧ c ≤ 'Z' then Char.ofNat (c.toNat + 32) else c

/-- Header names compare case-insensitively (Fetch `Headers` semantics). -/
def normK (k : String) : Str := k.data.map normChar

/-- `Headers.prototype.get`: the value stored under a name, compared
case-insensitively. -/
def hget (k : String) : List (String × String) → Option String
  | [] => none
  | p :: ps => if normK p.1 = normK k then some p.2 else hget k ps

/-- `Headers.prototype.set`: replace any entries with the same
(case-insensitive) name by a single entry with the new value. -/
def hset (k v : String) (h : List (String × String)) : List (String × String) :=
  h.filter (fun p => !(normK p.1 = normK k : Bool)) ++ [(k, v)]

/-- `Headers.prototype.append`, used by the `Headers` constructor: combine
with an existing entry of the same name (values joined by a comma), else add. -/
def happend (k v : String) (h : List (String × String)) : List (String × String) :=
  if (h.find? (fun p => normK p.1 = normK k)).isSome then
    h.map (fun p => if normK p.1 = normK k then (p.1, p.2 ++ ", " ++ v) else p)
  else h ++ [(k, v)]

/-- `new Headers(list)`: append each supplied pair in order. -/
def headersFrom (l : List (String × String)) : List (String × String) :=
  l.foldl (fun h p => happend p.1 p.2 h) []

/-- The fields of the host `RequestInit` this client reads or writes:
`headers` plus a representative further field (`method`) to express that the
rest of the object is untouched. -/
structure RequestInit where
  headers : Option (List (String × String)) := none
  method : Option String := none
deriving DecidableEq

/-- `SourceGraphClientOptions` (src/source-graph-client.ts lines 7-34). -/
structure ClientOptions where
  accessToken : Option String := none
  oauthToken : Option String := none
  url : String
  throwOnError : Bool := false
  init : Option RequestInit := none
deriving DecidableEq

/-- JavaScript truthiness of an optional string: present and non-empty. -/
def strTruthy : Option String → Bool
  | none => false
  | some s => !s.isEmpty

/-- The constructed client: its `headers` field and the options it retains. -/
structure Client where
  headers : List (String × String)
  options : ClientOptions
deriving DecidableEq

/-- The `SourceGraphClient` constructor (src/source-graph-client.ts lines
116-126, identical in part_002 lines 125-135): build `Headers` from
`options?.init?.headers || []`, set `Accept`, then set `Authorization` from
the access token if truthy, else from the OAuth token if truthy, else throw. -/
def mkClient (o : ClientOptions) : Except String Client :=
  let h0 := headersFrom ((o.init.bind (fun i => i.headers)).getD [])
  let h1 := hset "Accept" "text/event-stream" h0
  if strTruthy o.accessToken then
    .ok ⟨hset "Authorization" ("token " ++ o.accessToken.getD "") h1, o⟩
  else if strTruthy o.oauthToken then
    .ok ⟨hset "Authorization" ("Bearer " ++ o.oauthToken.getD "") h1, o⟩
  else .error "Either accessToken or oauthToken must be provided"

/-- The Authorization value the constructor derives from the credentials,
access token taking precedence. -/
def authValue (o : ClientOptions) : String :=
  if strTruthy o.accessToken then "token " ++ o.accessToken.getD ""
  else "Bearer " ++ o.oauthToken.getD ""

/-- The options mutation every `search`/`raw`/`stream` call performs before
fetching (part_002 lines 211-212, src/source-graph-client.ts lines 152-153):
`const init = this.options.init ?? \x7b\x7d; init.headers = this.headers;`.
When `options.init` was supplied, its `headers` field is overwritten with
the client's headers; when absent, a fresh object is mutated instead and the
stored options are untouched. -/
def callInitUpdate (c : Client) : Client :=
  match c.options.init with
  | none => c
  | some i =>
    { c with options := { c.options with init := some { i with headers := some c.headers } } }

/-- `SearchOptions` (src/source-graph-client.ts lines 40-81). -/
structure SearchOptions where
  version : Option String := none
  patternType : Option String := none
  maxLineLength : Option Int := none
  enableChunkMatches : Option Bool := none
  displayLimit : Option Int := none
  contextLines : Option Int := none

/-- JavaScript truthiness of an optional number: present and non-zero. -/
def intTruthy : Option Int → Bool
  | none => false
  | some n => !(n = 0 : Bool)

/-- JavaScript truthiness of an optional boolean. -/
def boolTruthy : Option Bool → Bool
  | none => false
  | some b => b

/-- `Number.prototype.toString` for the integer options. -/
def jsIntStr (n : Int) : String := toString n

/-- `Boolean.prototype.toString`. -/
def jsBoolStr (b : Bool) : String := if b then "true" else "false"

/-- The `URLSearchParams` built by part_002's `stream` (lines 214-239; the
same code is inlined in `search` in src/source-graph-client.ts lines
155-180): `q` is always appended, every other parameter only when the
corresponding option is truthy, and `cl` only when `contextLines` and
`enableChunkMatches` are both truthy.  Percent-encoding is left to the host
and not modelled. -/
def streamParams (query : String) (o : SearchOptions) : List (String × String) :=
  [("q", query)]
  ++ (if strTruthy o.version then [("v", o.version.getD "")] else [])
  ++ (if strTruthy o.patternType then [("t", o.patternType.getD "")] else [])
  ++ (if intTruthy o.maxLineLength then
        [("max-line-len", jsIntStr (o.maxLineLength.getD 0))] else [])
  ++ (if boolTruthy o.enableChunkMatches then
        [("cm", jsBoolStr (o.enableChunkMatches.getD false))] else [])
  ++ (if intTruthy o.displayLimit then
        [("display", jsIntStr (o.displayLimit.getD 0))] else [])
  ++ (if intTruthy o.contextLines && boolTruthy o.enableChunkMatches then
        [("cl", jsIntStr (o.contextLines.getD 0))] else [])

/-- Lookup of the first value under a key in a parameter list. -/
def pget (k : String) : List (String × String) → Option String
  | [] => none
  | p :: ps => if p.1 = k then some p.2 else pget k ps

theorem findSep_le : ∀ (s : Str) (j : Nat), findSep s = some j → j + 2 ≤ s.length
  | [], _, h => by simp [findSep] at h
  | [_], _, h => by simp [findSep] at h
  | c₁ :: c₂ :: rest, j, h => by
    rw [findSep] at h
    split at h
    · cases h
      simp
    · rcases Option.map_eq_some'.1 h with ⟨j', hj', rfl⟩
      have := findSep_le (c₂ :: rest) j' hj'
      simp only [List.length_cons] at this ⊢
      omega

theorem findSep_append (t : Str) :
    ∀ (s : Str) (j : Nat), findSep s = some j → findSep (s ++ t) = some j
  | [], _, h => by simp [findSep] at h
  | [_], _, h => by simp [findSep] at h
  | c₁ :: c₂ :: rest, j, h => by
    rw [findSep] at h
    rw [List.cons_append, List.cons_append, findSep]
    split at h
    · next hc => simp [hc, h]
    · next hc =>
      rcases Option.map_eq_some'.1 h with ⟨j', hj', rfl⟩
      rw [if_neg hc, ← List.cons_append, findSep_append t (c₂ :: rest) j' hj']
      rfl

theorem extractF_nil : ∀ f : Nat, extractF f [] = ([], [])
  | 0 => rfl
  | _ + 1 => by rw [extractF]; rfl

theorem extractF_congr :
    ∀ (f₁ f₂ : Nat) (s : Str), s.length ≤ f₁ → s.length ≤ f₂ →
      extractF f₁ s = extractF f₂ s
  | 0, f₂, s, h₁, _ => by
    have : s = [] := List.length_eq_zero.1 (Nat.le_zero.1 h₁)
    subst this
    rw [extractF_nil, extractF_nil]
  | _ + 1, 0, s, _, h₂ => by
    have : s = [] := List.length_eq_zero.1 (Nat.le_zero.1 h₂)
    subst this
    rw [extractF_nil, extractF_nil]
  | f₁ + 1, f₂ + 1, s, h₁, h₂ => by
    rw [extractF, extractF]
    cases hfs : findSep s with
    | none => rfl
    | some j =>
      have hj := findSep_le s j hfs
      have hlen : (s.drop (j + 2)).length ≤ f₁ := by
        simp only [List.length_drop]
        omega
      have hlen' : (s.drop (j + 2)).length ≤ f₂ := by
        simp only [List.length_drop]
        omega
      simp only [extractF_congr f₁ f₂ (s.drop (j + 2)) hlen hlen']

theorem extract_none {s : Str} (h : findSep s = none) : extract s = ([], s) := by
  cases s with
  | nil => exact extractF_nil _
  | cons c rest =>
    rw [extract, List.length_cons, extractF, h]

theorem extract_step {s : Str} {j : Nat} (h : findSep s = some j) :
    extract s = (trimStr (s.take (j + 2)) :: (extract (s.drop (j + 2))).1,
                 (extract (s.drop (j + 2))).2) := by
  have hj := findSep_le s j h
  have hpos : 0 < s.length := by omega
  rcases Nat.exists_eq_add_of_lt hpos with ⟨m, hm⟩
  have hlen : (s.drop (j + 2)).length ≤ m := by
    simp only [List.length_drop]
    omega
  rw [extract, hm, Nat.zero_add, extractF, h]
  dsimp only
  rw [extractF_congr m (s.drop (j + 2)).length (s.drop (j + 2)) hlen le_rfl]
  rfl

theorem extract_residue : ∀ (s : Str), findSep (extract s).2 = none := by
  intro s
  generalize hn : s.length = n
  induction n using Nat.strong_induction_on generalizing s with
  | _ n ih =>
    cases hfs : findSep s with
    | none => rw [extract_none hfs]; exact hfs
    | some j =>
      have hj := findSep_le s j hfs
      rw [extract_step hfs]
      exact ih (s.drop (j + 2)).length (by subst hn; simp [List.length_drop]; omega)
        (s.drop (j + 2)) rfl

theorem extract_append (t : Str) : ∀ (s : Str),
    extract (s ++ t) = ((extract s).1 ++ (extract ((extract s).2 ++ t)).1,
                        (extract ((extract s).2 ++ t)).2) := by
  intro s
  generalize hn : s.length = n
  induction n using Nat.strong_induction_on generalizing s with
  | _ n ih =>
    cases hfs : findSep s with
    | none => rw [extract_none hfs]; simp
    | some j =>
      have hj := findSep_le s j hfs
      rw [extract_step hfs, extract_step (findSep_append t s j hfs)]
      rw [List.take_append_of_le_length hj, List.drop_append_of_le_length hj]
      rw [ih (s.drop (j + 2)).length (by subst hn; simp [List.length_drop]; omega)
        (s.drop (j + 2)) rfl]
      simp

theorem routeList_append_some {toe : Bool} {parse : Str → Option Json}
    {acc : List Json} {fs : List Str} {t : Term}
    (h : (routeList toe parse acc fs).2 = some t) (gs : List Str) :
    routeList toe parse acc (fs ++ gs) = routeList toe parse acc fs := by
  induction fs generalizing acc with
  | nil => simp [routeList] at h
  | cons f fs ih =>
    rw [List.cons_append, routeList, routeList]
    rw [routeList] at h
    cases hpf : processFrame toe parse f with
    | skip => rw [hpf] at h; exact ih h
    | yields rs => rw [hpf] at h; exact ih h
    | stop t' => rfl

theorem routeList_append_none {toe : Bool} {parse : Str → Option Json}
    {acc : List Json} {fs : List Str}
    (h : (routeList toe parse acc fs).2 = none) (gs : List Str) :
    routeList toe parse acc (fs ++ gs) =
      routeList toe parse (routeList toe parse acc fs).1 gs := by
  induction fs generalizing acc with
  | nil => rw [routeList]; rfl
  | cons f fs ih =>
    rw [List.cons_append, routeList, routeList]
    rw [routeList] at h
    cases hpf : processFrame toe parse f with
    | skip => rw [hpf] at h; exact ih h
    | yields rs => rw [hpf] at h; exact ih h
    | stop t' => rw [hpf] at h; exact Option.noConfusion h

theorem routeList_spec (toe : Bool) (parse : Str → Option Json) :
    ∀ (fs : List Str) (acc : List Json),
      routeList toe parse acc fs = (acc ++ flatYields toe parse fs, firstTerm toe parse fs)
  | [], acc => by simp [routeList, flatYields, firstTerm]
  | f :: fs, acc => by
    rw [routeList, flatYields, firstTerm]
    cases hpf : processFrame toe parse f with
    | skip => exact routeList_spec toe parse fs acc
    | yields rs =>
      show routeList toe parse (acc ++ rs) fs
        = (acc ++ (rs ++ flatYields toe parse fs), firstTerm toe parse fs)
      rw [routeList_spec toe parse fs (acc ++ rs), List.append_assoc]
    | stop t => simp

theorem feedChunk_term {toe : Bool} {parse : Str → Option Json} {st : MachineState}
    (h : st.term.isSome) (c : Str) : feedChunk toe parse st c = st := by
  rw [feedChunk, if_pos h]

theorem feedChunk_eq_stop {toe : Bool} {parse : Str → Option Json} {st : MachineState}
    {c : Str} {t : Term} (hterm : ¬ st.term.isSome)
    (hrt : (routeList toe parse st.out (extract (st.buf ++ c)).1).2 = some t) :
    feedChunk toe parse st c =
      ⟨[], (routeList toe parse st.out (extract (st.buf ++ c)).1).1, some t⟩ := by
  rw [feedChunk, if_neg hterm]
  simp only [hrt]

theorem feedChunk_eq_go {toe : Bool} {parse : Str → Option Json} {st : MachineState}
    {c : Str} (hterm : ¬ st.term.isSome)
    (hrt : (routeList toe parse st.out (extract (st.buf ++ c)).1).2 = none) :
    feedChunk toe parse st c =
      ⟨(extract (st.buf ++ c)).2,
       (routeList toe parse st.out (extract (st.buf ++ c)).1).1, none⟩ := by
  rw [feedChunk, if_neg hterm]
  simp only [hrt]

theorem feedChunks_term {toe : Bool} {parse : Str → Option Json} {st : MachineState}
    (h : st.term.isSome) (cs : List Str) : feedChunks toe parse st cs = st := by
  induction cs with
  | nil => rfl
  | cons c cs ih =>
    rw [feedChunks, List.foldl_cons, feedChunk_term h]
    exact ih

theorem feedChunk_assoc (toe : Bool) (parse : Str → Option Json)
    (st : MachineState) (a b : Str) :
    feedChunk toe parse (feedChunk toe parse st a) b = feedChunk toe parse st (a ++ b) := by
  by_cases hterm : st.term.isSome
  · rw [feedChunk_term hterm, feedChunk_term hterm, feedChunk_term hterm]
  · have hext := extract_append b (st.buf ++ a)
    have h1 : (extract (st.buf ++ a ++ b)).1
        = (extract (st.buf ++ a)).1 ++ (extract ((extract (st.buf ++ a)).2 ++ b)).1 := by
      rw [hext]
    have h2 : (extract (st.buf ++ a ++ b)).2
        = (extract ((extract (st.buf ++ a)).2 ++ b)).2 := by
      rw [hext]
    cases hrt : (routeList toe parse st.out (extract (st.buf ++ a)).1).2 with
    | some t =>
      have hrt2 : (routeList toe parse st.out (extract (st.buf ++ (a ++ b))).1).2 = some t := by
        rw [← List.append_assoc, h1, routeList_append_some hrt]
        exact hrt
      rw [feedChunk_eq_stop hterm hrt, feedChunk_term (by simp), feedChunk_eq_stop hterm hrt2,
        ← List.append_assoc, h1, routeList_append_some hrt]
    | none =>
      rw [feedChunk_eq_go hterm hrt]
      cases hrt2 : (routeList toe parse
          (routeList toe parse st.out (extract (st.buf ++ a)).1).1
          (extract ((extract (st.buf ++ a)).2 ++ b)).1).2 with
      | some t =>
        have hrtR : (routeList toe parse st.out (extract (st.buf ++ (a ++ b))).1).2 = some t := by
          rw [← List.append_assoc, h1, routeList_append_none hrt]
          exact hrt2
        rw [@feedChunk_eq_stop toe parse
            ⟨(extract (st.buf ++ a)).2,
             (routeList toe parse st.out (extract (st.buf ++ a)).1).1, none⟩ b t
            (by simp) hrt2,
          feedChunk_eq_stop hterm hrtR, ← List.append_assoc, h1, routeList_append_none hrt]
      | none =>
        have hrtR : (routeList toe parse st.out (extract (st.buf ++ (a ++ b))).1).2 = none := by
          rw [← List.append_assoc, h1, routeList_append_none hrt]
          exact hrt2
        rw [@feedChunk_eq_go toe parse
            ⟨(extract (st.buf ++ a)).2,
             (routeList toe parse st.out (extract (st.buf ++ a)).1).1, none⟩ b
            (by simp) hrt2,
          feedChunk_eq_go hterm hrtR, ← List.append_assoc, h1, h2, routeList_append_none hrt]

theorem feedChunks_flatten (toe : Bool) (parse : Str → Option Json) :
    ∀ (cs : List Str) (st : MachineState), findSep st.buf = none →
      feedChunks toe parse st cs = feedChunk toe parse st cs.flatten
  | [], st, h => by
    rw [feedChunks, List.foldl_nil]
    show st = feedChunk toe parse st []
    by_cases hterm : st.term.isSome
    · rw [feedChunk_term hterm]
    · rw [feedChunk, if_neg hterm]
      simp only [List.append_nil, extract_none h, routeList]
      cases st with
      | mk b o t =>
        cases t with
        | none => rfl
        | some t => simp at hterm
  | c :: cs, st, h => by
    rw [feedChunks, List.foldl_cons, ← feedChunks, List.flatten_cons, ← feedChunk_assoc]
    apply feedChunks_flatten toe parse cs
    by_cases hterm : st.term.isSome
    · rw [feedChunk_term hterm]; exact h
    · cases hrt : (routeList toe parse st.out (extract (st.buf ++ c)).1).2 with
      | some t => rw [feedChunk_eq_stop hterm hrt]; rfl
      | none => rw [feedChunk_eq_go hterm hrt]; exact extract_residue (st.buf ++ c)

/-- C1: for every overall byte stream and every way of splitting it into a
sequence of chunks, part_003's `search` produces the same machine state —
in particular the same yielded results in the same order and the same
termination — because the outcome depends only on the concatenation of the
chunks.  (Chunks are character sequences: per spec section 4.1 the
underlying text decode is taken as byte-accurate per chunk.) -/
theorem c1_chunk_boundary_independence (toe : Bool) (parse : Str → Option Json)
    (cs₁ cs₂ : List Str) (h : cs₁.flatten = cs₂.flatten) :
    searchRun toe parse cs₁ = searchRun toe parse cs₂ := by
  rw [searchRun, searchRun,
    feedChunks_flatten toe parse cs₁ ⟨[], [], none⟩ rfl,
    feedChunks_flatten toe parse cs₂ ⟨[], [], none⟩ rfl, h]

/-- Witness for C1: a concrete stream cut at arbitrary positions (including
through the frame separator) versus the same stream in one chunk. -/
theorem c1_witness :
    searchRun false parseDemo
        [strL "event:ma", strL "tches\ndata:[1,2]\n", strL "\nevent:x\ndata:1\n\n"]
      = searchRun false parseDemo
          [strL "event:matches\ndata:[1,2]\n\nevent:x\ndata:1\n\n"] :=
  c1_chunk_boundary_independence false parseDemo _ _ (by decide)

/-- C4 (failing input): the spec's own example frame `event:ping` — an
event line with no data line at all — makes part_003's `search` raise a
host `TypeError` (`dt` is `undefined` at line 218) even under the default
policy, instead of skipping the frame and continuing. -/
theorem c4_event_only_frame_crash :
    searchRun false parseDemo [strL "event:ping\n\n"] = ⟨[], [], some Term.crash⟩ := rfl

/-- A string free of line breaks, i.e. one that stays within its frame line. -/
def noNl (s : Str) : Prop := ∀ c ∈ s, c ≠ '\n'

instance (s : Str) : Decidable (noNl s) :=
  inferInstanceAs (Decidable (∀ c ∈ s, c ≠ '\n'))

theorem splitNl_noNl : ∀ (s : Str), noNl s → splitNl s = [s]
  | [], _ => rfl
  | c :: rest, h => by
    have hc : c ≠ '\n' := h c (by simp)
    rw [splitNl, if_neg hc, splitNl_noNl rest (fun x hx => h x (by simp [hx]))]

theorem splitNl_append : ∀ (pre s : Str), noNl pre →
    splitNl (pre ++ '\n' :: s) = pre :: splitNl s
  | [], s, _ => by rw [List.nil_append, splitNl, if_pos rfl]
  | c :: pre, s, h => by
    have hc : c ≠ '\n' := h c (by simp)
    rw [List.cons_append, splitNl, if_neg hc,
      splitNl_append pre s (fun x hx => h x (by simp [hx]))]

theorem startsWithL_self : ∀ (pat x : Str), startsWithL pat (pat ++ x) = true
  | [], _ => rfl
  | p :: ps, x => by
    rw [List.cons_append, startsWithL]
    simp [startsWithL_self ps x]

theorem replaceFirst_self : ∀ (pat x : Str), pat ≠ [] → replaceFirst pat (pat ++ x) = x
  | [], _, h => absurd rfl h
  | p :: ps, x, _ => by
    rw [List.cons_append, replaceFirst, if_pos]
    · rw [List.length_cons, ← List.cons_append]
      exact List.drop_left (p :: ps) x
    · rw [← List.cons_append]
      exact startsWithL_self (p :: ps) x

theorem splitNl_frame (nm p : Str) (hnm : noNl nm) (hp : noNl p) :
    splitNl (nm ++ '\n' :: (strL "data:" ++ p)) = [nm, strL "data:" ++ p] := by
  rw [splitNl_append _ _ hnm, splitNl_noNl]
  intro c hc
  rcases List.mem_append.1 hc with h | h
  · exact (by decide : noNl (strL "data:")) c h
  · exact hp c h

theorem processFrame_matches_arr (toe : Bool) (parse : Str → Option Json) (p : Str)
    (xs : List Json) (hp : noNl p) (hparse : parse (trimStr p) = some (Json.arr xs)) :
    processFrame toe parse (strL "event:matches\ndata:" ++ p) = .yields xs := by
  have e0 : strL "event:matches\ndata:"
      = strL "event:matches" ++ '\n' :: strL "data:" := rfl
  have e : strL "event:matches\ndata:" ++ p
      = strL "event:matches" ++ '\n' :: (strL "data:" ++ p) := by
    rw [e0, List.append_assoc, List.cons_append]
  rw [e, processFrame,
    if_neg (fun h => absurd (List.append_eq_nil.1 h).1 (by decide)),
    splitNl_frame _ p (by decide) hp]
  simp only [replaceFirst_self (strL "data:") p (by decide), startsWithL_self, hparse]
  rfl

theorem processFrame_done (toe : Bool) (parse : Str → Option Json) (p : Str)
    (hp : noNl p) :
    processFrame toe parse (strL "event:done\ndata:" ++ p) = .stop .doneT := by
  have e0 : strL "event:done\ndata:"
      = strL "event:done" ++ '\n' :: strL "data:" := rfl
  have e : strL "event:done\ndata:" ++ p
      = strL "event:done" ++ '\n' :: (strL "data:" ++ p) := by
    rw [e0, List.append_assoc, List.cons_append]
  rw [e, processFrame,
    if_neg (fun h => absurd (List.append_eq_nil.1 h).1 (by decide)),
    splitNl_frame _ p (by decide) hp]
  rfl

/-- C7: in part_003's `search`, results are yielded in exactly the order of
their frames (the output of a run is the frame-ordered concatenation of the
per-frame contributions, cut at the first terminating frame), and a matches
frame whose payload parses to an array yields precisely the array elements,
in array order. -/
theorem c7_result_ordering (toe : Bool) (parse : Str → Option Json) (s : Str)
    (fs : List Str) (acc : List Json) (p : Str) (xs : List Json)
    (hp : noNl p) (hparse : parse (trimStr p) = some (Json.arr xs)) :
    (searchRun toe parse [s]).out = flatYields toe parse (extract s).1
    ∧ routeList toe parse acc fs = (acc ++ flatYields toe parse fs, firstTerm toe parse fs)
    ∧ processFrame toe parse (strL "event:matches\ndata:" ++ p) = .yields xs := by
  refine ⟨?_, routeList_spec toe parse fs acc,
    processFrame_matches_arr toe parse p xs hp hparse⟩
  rw [searchRun, feedChunks, List.foldl_cons, List.foldl_nil]
  cases hrt : (routeList toe parse [] (extract (([] : Str) ++ s)).1).2 with
  | some t =>
    rw [feedChunk_eq_stop (by simp) hrt]
    show (routeList toe parse [] (extract (([] : Str) ++ s)).1).1 = _
    rw [routeList_spec, List.nil_append, List.nil_append]
  | none =>
    rw [feedChunk_eq_go (by simp) hrt]
    show (routeList toe parse [] (extract (([] : Str) ++ s)).1).1 = _
    rw [routeList_spec, List.nil_append, List.nil_append]

/-- Witness for C7 at a concrete stream, frame list and matches payload. -/
theorem c7_witness :
    (searchRun false parseDemo [strL "event:matches\ndata:[1,2]\n\n"]).out
        = flatYields false parseDemo (extract (strL "event:matches\ndata:[1,2]\n\n")).1
    ∧ routeList false parseDemo [] [strL "event:matches\ndata:[3]"]
        = ([] ++ flatYields false parseDemo [strL "event:matches\ndata:[3]"],
           firstTerm false parseDemo [strL "event:matches\ndata:[3]"])
    ∧ processFrame false parseDemo (strL "event:matches\ndata:" ++ strL "[1,2]")
        = .yields [Json.num 1, Json.num 2] :=
  c7_result_ordering false parseDemo _ _ _ (strL "[1,2]") _ (by decide) rfl

/-- C2: in part_003's `search`, a frame recognised as the terminal event
stops the run: the routing of any frame sequence around it returns exactly
the results collected before it, independently of everything after it
(nothing is yielded for the terminal frame itself); any well-formed frame
with event name `done` is so recognised; and once the machine is in the
done state no further chunk changes it (no further input is consumed). -/
theorem c2_done_stops_consumption (toe : Bool) (parse : Str → Option Json)
    (pre post : List Str) (df p : Str) (st : MachineState) (cs : List Str)
    (h1 : processFrame toe parse df = .stop .doneT)
    (h2 : (routeList toe parse [] pre).2 = none)
    (hp : noNl p) (h3 : st.term = some Term.doneT) :
    routeList toe parse [] (pre ++ df :: post)
        = ((routeList toe parse [] pre).1, some Term.doneT)
    ∧ processFrame toe parse (strL "event:done\ndata:" ++ p) = .stop .doneT
    ∧ feedChunks toe parse st cs = st := by
  refine ⟨?_, processFrame_done toe parse p hp, feedChunks_term (by rw [h3]; rfl) cs⟩
  rw [routeList_append_none h2, routeList, h1]

/-- Witness for C2: a matches frame, then a done frame, then another
matches frame; the run ends at the done frame with only the first frame's
results, and a machine in the done state ignores further chunks. -/
theorem c2_witness :
    routeList false parseDemo []
        ([strL "event:matches\ndata:[1,2]"]
          ++ strL "event:done\ndata:x" :: [strL "event:matches\ndata:[3]"])
        = ((routeList false parseDemo [] [strL "event:matches\ndata:[1,2]"]).1,
           some Term.doneT)
    ∧ processFrame false parseDemo (strL "event:done\ndata:" ++ strL "x")
        = .stop .doneT
    ∧ feedChunks false parseDemo ⟨[], [Json.num 1], some Term.doneT⟩
        [strL "event:matches\ndata:[3]\n\n"]
        = ⟨[], [Json.num 1], some Term.doneT⟩ :=
  c2_done_stops_consumption false parseDemo _ _ _ (strL "x") _ _ rfl rfl (by decide) rfl

theorem rawT_map (parse : Str → Option Json) :
    ∀ msgs : List SSEMsg,
      rawT parse msgs = msgs.map (fun m => ⟨m.event, rawData parse m.data⟩)
  | [] => rfl
  | m :: ms => by rw [rawT, rawT_map parse ms, List.map_cons]

theorem rawT_append (parse : Str → Option Json) :
    ∀ ms₁ ms₂ : List SSEMsg, rawT parse (ms₁ ++ ms₂) = rawT parse ms₁ ++ rawT parse ms₂
  | [], _ => rfl
  | m :: ms, ms₂ => by
    rw [List.cons_append, rawT, rawT, rawT_append parse ms ms₂, List.cons_append]

/-- C6 (amended): part_002's `raw` emits exactly one event per classified
frame of the input stream, in frame order, with the event name preserved; it
never stops early (appending further messages — e.g. after a done frame —
appends their events); and a payload that parses to a JSON value other than
null is forwarded as that parsed value.  (A payload that fails to parse, or
that parses to JSON null, is forwarded as the original raw string — see the
counterexample for the null case, which the original claim missed.) -/
theorem c6_raw_emission_amended (parse : Str → Option Json) (s : Str)
    (msgs ms₁ ms₂ : List SSEMsg) (d : Str) (v : Json)
    (h1 : parse d = some v) (h2 : v ≠ Json.null) (h3 : d ≠ []) :
    rawRun parse s = (transformMsgs s).map (fun m => ⟨m.event, rawData parse m.data⟩)
    ∧ rawT parse msgs = msgs.map (fun m => ⟨m.event, rawData parse m.data⟩)
    ∧ rawT parse (ms₁ ++ ms₂) = rawT parse ms₁ ++ rawT parse ms₂
    ∧ rawData parse d = .jsonVal v := by
  refine ⟨rawT_map parse (transformMsgs s), rawT_map parse msgs,
    rawT_append parse ms₁ ms₂, ?_⟩
  rw [rawData, if_neg h3, h1]
  cases v with
  | null => exact absurd rfl h2
  | bool b => rfl
  | num n => rfl
  | str s => rfl
  | arr elems => rfl
  | obj fields => rfl

/-- Witness for C6 (amended) at a concrete stream and payloads. -/
theorem c6_witness :
    rawRun parseDemo (strL "event:done\ndata:1\n\n")
        = (transformMsgs (strL "event:done\ndata:1\n\n")).map
            (fun m => ⟨m.event, rawData parseDemo m.data⟩)
    ∧ rawT parseDemo [⟨strL "done", strL "1"⟩]
        = ([⟨strL "done", strL "1"⟩] : List SSEMsg).map
            (fun m => (⟨m.event, rawData parseDemo m.data⟩ : RawMsg))
    ∧ rawT parseDemo ([⟨strL "progress", strL "bad json"⟩] ++ [⟨strL "done", strL "1"⟩])
        = rawT parseDemo [⟨strL "progress", strL "bad json"⟩]
          ++ rawT parseDemo [⟨strL "done", strL "1"⟩]
    ∧ rawData parseDemo (strL "1") = .jsonVal (Json.num 1) :=
  c6_raw_emission_amended parseDemo _ _ _ _ (strL "1") (Json.num 1) rfl
    (fun h => Json.noConfusion h) (by decide)

/-- C6 (counterexample): the payload `null` parses as JSON, yet `raw`
forwards the original raw string instead of the parsed value, because
`safeParse` returns null both for a parse failure and for a parsed JSON
null, and `?? msg.data` then falls back to the raw string. -/
theorem c6_null_payload_counterexample :
    rawRun parseDemo (strL "event:x\ndata:null\n\n")
        = [⟨strL "x", .strVal (strL "null")⟩]
    ∧ parseDemo (strL "null") = some Json.null
    ∧ RawPayload.strVal (strL "null") ≠ RawPayload.jsonVal Json.null :=
  ⟨rfl, rfl, fun h => RawPayload.noConfusion h⟩

/-- C5 (amended): the `throwOnError` flag governs decode failures in
part_002's `search` only: when true, the first matches frame whose payload
is not a parsed array ends the call with the descriptive failure; when
false, that frame is skipped and iteration continues.  part_002's `raw`
never consults the flag: it emits one event for every message — including
undecodable ones, passed through — under either setting. -/
theorem c5_throw_on_error_amended (parse : Str → Option Json) (acc : List Json)
    (m : SSEMsg) (ms msgs : List SSEMsg)
    (hm : m.event = strL "matches")
    (hbad : ∀ xs : List Json, parse m.data ≠ some (Json.arr xs)) :
    searchTGo true parse acc (m :: ms)
        = (acc, some "Error parsing Sourcegraph search result")
    ∧ searchTGo false parse acc (m :: ms) = searchTGo false parse acc ms
    ∧ (rawT parse msgs).length = msgs.length := by
  refine ⟨?_, ?_, by rw [rawT_map parse msgs, List.length_map]⟩
  · rw [searchTGo, if_neg (by simp [hm])]
    cases hp : parse m.data with
    | none => rfl
    | some v =>
      cases v with
      | null => rfl
      | bool b => rfl
      | num n => rfl
      | str s => rfl
      | arr elems => exact absurd hp (hbad elems)
      | obj fields => rfl
  · rw [searchTGo, if_neg (by simp [hm])]
    cases hp : parse m.data with
    | none => rfl
    | some v =>
      cases v with
      | null => rfl
      | bool b => rfl
      | num n => rfl
      | str s => rfl
      | arr elems => exact absurd hp (hbad elems)
      | obj fields => rfl

/-- Witness for C5 (amended) at a concrete undecodable matches payload. -/
theorem c5_witness :
    searchTGo true parseDemo [] [⟨strL "matches", strL "bad json"⟩]
        = ([], some "Error parsing Sourcegraph search result")
    ∧ searchTGo false parseDemo [] [⟨strL "matches", strL "bad json"⟩]
        = searchTGo false parseDemo [] []
    ∧ (rawT parseDemo [⟨strL "done", strL "x"⟩]).length
        = [(⟨strL "done", strL "x"⟩ : SSEMsg)].length := by
  have e : parseDemo (strL "bad json") = none := rfl
  exact c5_throw_on_error_amended parseDemo [] ⟨strL "matches", strL "bad json"⟩ []
    [⟨strL "done", strL "x"⟩] rfl (fun xs h => Option.noConfusion (e.symm.trans h))

/-- C5 (counterexample): with `throwOnError` set, `raw` still does not end
at a frame whose payload fails to decode — the offending frame is emitted
with its raw string and the following frame is emitted too, because the
`raw` loop references neither `throwOnError` nor `handleError`. -/
theorem c5_raw_ignores_flag_counterexample :
    (rawT parseDemo [⟨strL "custom", strL "bad json"⟩, ⟨strL "progress", strL "1"⟩]).length = 2
    ∧ rawT parseDemo [⟨strL "custom", strL "bad json"⟩, ⟨strL "progress", strL "1"⟩]
        = [⟨strL "custom", .strVal (strL "bad json")⟩,
           ⟨strL "progress", .jsonVal (Json.num 1)⟩] :=
  ⟨rfl, rfl⟩

theorem hget_hset_same (k k' v : String) (hk : normK k' = normK k) :
    ∀ h : List (String × String), hget k' (hset k v h) = some v
  | [] => by rw [hset, List.filter_nil, List.nil_append, hget, if_pos hk.symm]
  | p :: ps => by
    rw [hset, List.filter_cons]
    by_cases hp : normK p.1 = normK k
    · rw [if_neg (by simp [hp])]
      exact hget_hset_same k k' v hk ps
    · rw [if_pos (by simp [hp]), List.cons_append, hget,
        if_neg (fun hh => hp (hh.trans hk))]
      exact hget_hset_same k k' v hk ps

theorem hget_hset_other (k k' v : String) (hk : normK k' ≠ normK k) :
    ∀ h : List (String × String), hget k' (hset k v h) = hget k' h
  | [] => by
    rw [hset, List.filter_nil, List.nil_append, hget, hget,
      if_neg (fun hh : normK (k, v).1 = normK k' => hk hh.symm), hget]
  | p :: ps => by
    rw [hset, List.filter_cons]
    by_cases hp : normK p.1 = normK k
    · rw [if_neg (by simp [hp]), hget,
        if_neg (fun hh : normK p.1 = normK k' => hk (hh.symm.trans hp))]
      exact hget_hset_other k k' v hk ps
    · rw [if_pos (by simp [hp]), List.cons_append, hget, hget]
      by_cases hq : normK p.1 = normK k'
      · rw [if_pos hq, if_pos hq]
      · rw [if_neg hq, if_neg hq]
        exact hget_hset_other k k' v hk ps

theorem mkClient_access {o : ClientOptions} (h : strTruthy o.accessToken) :
    mkClient o = .ok ⟨hset "Authorization" ("token " ++ o.accessToken.getD "")
      (hset "Accept" "text/event-stream"
        (headersFrom ((o.init.bind (fun i => i.headers)).getD []))), o⟩ := by
  rw [mkClient, if_pos h]

theorem mkClient_oauth {o : ClientOptions} (h1 : ¬ strTruthy o.accessToken)
    (h2 : strTruthy o.oauthToken) :
    mkClient o = .ok ⟨hset "Authorization" ("Bearer " ++ o.oauthToken.getD "")
      (hset "Accept" "text/event-stream"
        (headersFrom ((o.init.bind (fun i => i.headers)).getD []))), o⟩ := by
  rw [mkClient, if_neg h1, if_pos h2]

theorem mkClient_err {o : ClientOptions} (h1 : ¬ strTruthy o.accessToken)
    (h2 : ¬ strTruthy o.oauthToken) :
    mkClient o = .error "Either accessToken or oauthToken must be provided" := by
  rw [mkClient, if_neg h1, if_neg h2]

/-- C3 (amended): construction fails exactly when neither credential is
truthy; with the access token truthy (the OAuth token absent or not)
construction succeeds with the token scheme; with only the OAuth token
truthy it succeeds with the bearer scheme.  In particular — contrary to the
original claim — supplying both credentials is not an error: the access
token takes precedence (see the counterexample). -/
theorem c3_credential_validation_amended (o o' o'' : ClientOptions)
    (ha : strTruthy o.accessToken)
    (hb : ¬ strTruthy o'.accessToken) (hc : strTruthy o'.oauthToken)
    (hd : ¬ strTruthy o''.accessToken) (he : ¬ strTruthy o''.oauthToken) :
    (mkClient o).map (fun c => hget "Authorization" c.headers)
        = .ok (some ("token " ++ o.accessToken.getD ""))
    ∧ (mkClient o').map (fun c => hget "Authorization" c.headers)
        = .ok (some ("Bearer " ++ o'.oauthToken.getD ""))
    ∧ mkClient o'' = .error "Either accessToken or oauthToken must be provided" := by
  refine ⟨?_, ?_, mkClient_err hd he⟩
  · rw [mkClient_access ha]
    show Except.ok (hget "Authorization" (hset "Authorization"
      ("token " ++ o.accessToken.getD "") (hset "Accept" "text/event-stream"
        (headersFrom ((o.init.bind (fun i => i.headers)).getD []))))) = _
    rw [hget_hset_same _ _ _ rfl]
  · rw [mkClient_oauth hb hc]
    show Except.ok (hget "Authorization" (hset "Authorization"
      ("Bearer " ++ o'.oauthToken.getD "") (hset "Accept" "text/event-stream"
        (headersFrom ((o'.init.bind (fun i => i.headers)).getD []))))) = _
    rw [hget_hset_same _ _ _ rfl]

/-- Witness for C3 (amended) at concrete single-credential options. -/
theorem c3_witness :
    (mkClient { accessToken := some "a", url := "u" }).map
        (fun c => hget "Authorization" c.headers)
        = .ok (some ("token " ++ (some "a").getD ""))
    ∧ (mkClient { oauthToken := some "b", url := "u" }).map
        (fun c => hget "Authorization" c.headers)
        = .ok (some ("Bearer " ++ (some "b").getD ""))
    ∧ mkClient { url := "u" }
        = .error "Either accessToken or oauthToken must be provided" :=
  c3_credential_validation_amended
    { accessToken := some "a", url := "u" }
    { oauthToken := some "b", url := "u" }
    { url := "u" } rfl (by decide) rfl (by decide) (by decide)

/-- C3 (counterexample): supplying BOTH credential kinds does not fail —
the constructor takes the access-token branch and succeeds with the token
scheme, while the original claim requires a construction-time error. -/
theorem c3_both_credentials_counterexample :
    mkClient { accessToken := some "a", oauthToken := some "b", url := "u" }
      = .ok ⟨[("Accept", "text/event-stream"), ("Authorization", "token a")],
             { accessToken := some "a", oauthToken := some "b", url := "u" }⟩ := rfl

/-- C10: for every construction that succeeds, the client's headers agree
with the caller-supplied headers on every name other than Accept and
Authorization, while Accept is always `text/event-stream` and Authorization
is always the value derived from the configured credential — the fixed
headers override anything the caller supplied under those names. -/
theorem c10_headers_precedence (o : ClientOptions) (c : Client) (k : String)
    (hok : mkClient o = .ok c)
    (hk1 : normK k ≠ normK "Accept") (hk2 : normK k ≠ normK "Authorization") :
    hget k c.headers
        = hget k (headersFrom ((o.init.bind (fun i => i.headers)).getD []))
    ∧ hget "Accept" c.headers = some "text/event-stream"
    ∧ hget "Authorization" c.headers = some (authValue o) := by
  by_cases ha : strTruthy o.accessToken
  · rw [mkClient_access ha] at hok
    injection hok with hok
    subst hok
    refine ⟨?_, ?_, ?_⟩
    · rw [hget_hset_other _ _ _ hk2, hget_hset_other _ _ _ hk1]
    · rw [hget_hset_other _ _ _ (by decide), hget_hset_same _ _ _ rfl]
    · rw [hget_hset_same _ _ _ rfl, authValue, if_pos ha]
  · by_cases hb : strTruthy o.oauthToken
    · rw [mkClient_oauth ha hb] at hok
      injection hok with hok
      subst hok
      refine ⟨?_, ?_, ?_⟩
      · rw [hget_hset_other _ _ _ hk2, hget_hset_other _ _ _ hk1]
      · rw [hget_hset_other _ _ _ (by decide), hget_hset_same _ _ _ rfl]
      · rw [hget_hset_same _ _ _ rfl, authValue, if_neg ha]
    · rw [mkClient_err ha hb] at hok
      exact Except.noConfusion hok

/-- Options with caller-supplied init headers, used by the C9/C10 examples. -/
def c9opts : ClientOptions :=
  { accessToken := some "t", url := "u",
    init := some { headers := some [("X-Custom-Header", "1")], method := some "GET" } }

/-- The client `mkClient c9opts` constructs (checked by `rfl` below). -/
def c9client : Client :=
  { headers := [("X-Custom-Header", "1"), ("Accept", "text/event-stream"),
                ("Authorization", "token t")],
    options := c9opts }

/-- Witness for C10 at a concrete construction with a custom header. -/
theorem c10_witness :
    hget "X-Custom-Header" c9client.headers
        = hget "X-Custom-Header"
            (headersFrom ((c9opts.init.bind (fun i => i.headers)).getD []))
    ∧ hget "Accept" c9client.headers = some "text/event-stream"
    ∧ hget "Authorization" c9client.headers = some (authValue c9opts) :=
  c10_headers_precedence c9opts c9client "X-Custom-Header" rfl (by decide) (by decide)

/-- C9 (amended): the configuration is preserved by a call except for one
field: the call leaves url, both credentials, the error flag, the client's
headers and the other `init` fields (`method`) unchanged, but when
`options.init` was supplied its `headers` field is overwritten with the
client's headers (when `options.init` is absent nothing is stored back). -/
theorem c9_config_mutation_amended (c : Client) :
    (callInitUpdate c).options.url = c.options.url
    ∧ (callInitUpdate c).options.accessToken = c.options.accessToken
    ∧ (callInitUpdate c).options.oauthToken = c.options.oauthToken
    ∧ (callInitUpdate c).options.throwOnError = c.options.throwOnError
    ∧ (callInitUpdate c).headers = c.headers
    ∧ (callInitUpdate c).options.init
        = c.options.init.map (fun i => { i with headers := some c.headers }) := by
  cases hc : c.options.init with
  | none => simp [callInitUpdate, hc]
  | some i => simp [callInitUpdate, hc]

/-- C9 (counterexample): the options value is not immutable — after one
call the supplied `options.init.headers` has been replaced by the client's
headers, no longer the caller's original list. -/
theorem c9_init_mutated_counterexample :
    mkClient c9opts = .ok c9client
    ∧ (callInitUpdate c9client).options.init.bind (fun i => i.headers)
        = some c9client.headers
    ∧ c9client.options.init.bind (fun i => i.headers)
        = some [("X-Custom-Header", "1")]
    ∧ (callInitUpdate c9client).options.init ≠ c9client.options.init := by
  refine ⟨rfl, rfl, rfl, ?_⟩
  decide

/-- C8: for every search options value, the request's query parameters
follow the encoding table: `q` is always present with the query value;
`max-line-len`, `cm` and `display` are present exactly when the
corresponding option is truthy; `cl` is present exactly when `contextLines`
is truthy AND `enableChunkMatches` is truthy; and at the spec's example
options the parameter list is exactly `q`, `max-line-len=200`, `cm=true`,
`cl=3`, while the same `contextLines` without `enableChunkMatches`
produces no `cl`. -/
theorem c8_query_params (q : String) (o : SearchOptions) :
    pget "q" (streamParams q o) = some q
    ∧ (pget "max-line-len" (streamParams q o)).isSome = intTruthy o.maxLineLength
    ∧ (pget "cm" (streamParams q o)).isSome = boolTruthy o.enableChunkMatches
    ∧ (pget "display" (streamParams q o)).isSome = intTruthy o.displayLimit
    ∧ (pget "cl" (streamParams q o)).isSome
        = (intTruthy o.contextLines && boolTruthy o.enableChunkMatches)
    ∧ streamParams "x" { maxLineLength := some 200, enableChunkMatches := some true,
                         contextLines := some 3 }
        = [("q", "x"), ("max-line-len", "200"), ("cm", "true"), ("cl", "3")]
    ∧ pget "cl" (streamParams "x" { contextLines := some 3 }) = none := by
  refine ⟨?_, ?_, ?_, ?_, ?_, rfl, rfl⟩ <;>
  cases hv : strTruthy o.version <;>
  cases ht : strTruthy o.patternType <;>
  cases hm : intTruthy o.maxLineLength <;>
  cases hcm : boolTruthy o.enableChunkMatches <;>
  cases hd : intTruthy o.displayLimit <;>
  cases hcl : intTruthy o.contextLines <;>
  simp [streamParams, pget, hv, ht, hm, hcm, hd, hcl]
